import Mathlib

/-!
Verification of the two core components of the Lazy-C editor extension
(src/src/extension.ts): the terminator classifier `shouldAddSemicolon`
(lines 243-279) and the declaration synthesizer `autoGeneratePrototypes`
(lines 285-355).  The JavaScript regular expressions are embedded as
backtracking matchers over `List Char`; each definition mirrors one
regex literal of the source.
-/

set_option maxRecDepth 8000

/-- Characters of the JavaScript regex class \s (also the set trimmed by
String.prototype.trim). -/
def spaceChars : List Char :=
  [' ', '\t', '\n', '\r', '\x0b', '\x0c', '\u00a0', '\u1680',
   '\u2000', '\u2001', '\u2002', '\u2003', '\u2004', '\u2005', '\u2006',
   '\u2007', '\u2008', '\u2009', '\u200a', '\u2028', '\u2029', '\u202f',
   '\u205f', '\u3000', '\ufeff']

/-- JavaScript regex class \s as a character predicate. -/
def jsSpace (c : Char) : Bool := spaceChars.any (fun d => c == d)

/-- JavaScript regex class \w : ASCII letters, digits, underscore. -/
def isWordChar (c : Char) : Bool := c.isAlpha || c.isDigit || c == '_'

/-- The class [a-zA-Z_] used for the first character of an identifier. -/
def identStartChar (c : Char) : Bool := c.isAlpha || c == '_'

/-- JavaScript String.prototype.trim on a character list. -/
def jsTrim (l : List Char) : List Char :=
  ((l.dropWhile jsSpace).reverse.dropWhile jsSpace).reverse

/-- Match a literal character sequence, then continue with k on the rest. -/
def litM : List Char → List Char → (List Char → Bool) → Bool
  | [], s, k => k s
  | _ :: _, [], _ => false
  | c :: cs, d :: ds, k => c == d && litM cs ds k

/-- Backtracking Kleene star over a one-character class p: some number of
p-characters are consumed, then the continuation k must accept. -/
def starCls (p : Char → Bool) (k : List Char → Bool) : List Char → Bool
  | [] => k []
  | c :: r => k (c :: r) || (p c && starCls p k r)

/-- One-or-more repetition of a one-character class (regex +). -/
def plusCls (p : Char → Bool) (k : List Char → Bool) : List Char → Bool
  | [] => false
  | c :: r => p c && starCls p k r

/-- The next character is exactly c. -/
def headIs (c : Char) : List Char → Bool
  | [] => false
  | d :: _ => d == c

/-- End of input (regex anchor for a trailing dollar). -/
def atEnd : List Char → Bool
  | [] => true
  | _ :: _ => false

/-- Unanchored search: try the anchored matcher at every start position. -/
def searchFrom (m : List Char → Bool) : List Char → Bool
  | [] => m []
  | c :: r => m (c :: r) || searchFrom m r

/-- Word boundary placed after a word character: the next character is
absent or not a word character. -/
def wordBreakB : List Char → Bool
  | [] => true
  | c :: _ => !isWordChar c

/-- A keyword followed by a word boundary. -/
def kwHit (w : List Char) (s : List Char) : Bool := litM w s wordBreakB

/-- Alternation of literal alternatives, each followed by the same
continuation; true iff some alternative lets the rest succeed. -/
def altLits (ws : List (List Char)) (s : List Char) (k : List Char → Bool) : Bool :=
  ws.any (fun w => litM w s k)

/-- trimmed.endsWith(';') from line 247. -/
def endsWithSemiB (t : List Char) : Bool := t.getLast? == some ';'

/-- Regex [{},:\\]$ from line 250. -/
def endsStructuralB (t : List Char) : Bool :=
  match t.getLast? with
  | some c => c == '\x7b' || c == '\x7d' || c == ',' || c == ':' || c == '\\'
  | none => false

/-- Regex (caret)#|(caret)\/\/|(caret)\/\*|\*\/$ from line 253. -/
def commentPreprocB (t : List Char) : Bool :=
  headIs '#' t || litM ['/', '/'] t (fun _ => true) || litM ['/', '*'] t (fun _ => true) ||
    (match t.reverse with
     | '/' :: '*' :: _ => true
     | _ => false)

/-- The alternation (if|else\s+if|else|while|for|do|switch)\b of line 256. -/
def ctrlAltB (s : List Char) : Bool :=
  kwHit ['i', 'f'] s ||
  litM ['e', 'l', 's', 'e'] s (fun s1 => plusCls jsSpace (fun s2 => kwHit ['i', 'f'] s2) s1) ||
  kwHit ['e', 'l', 's', 'e'] s ||
  kwHit ['w', 'h', 'i', 'l', 'e'] s ||
  kwHit ['f', 'o', 'r'] s ||
  kwHit ['d', 'o'] s ||
  kwHit ['s', 'w', 'i', 't', 'c', 'h'] s

/-- Regex of line 256 (control structures). -/
def ctrlReB (t : List Char) : Bool := starCls jsSpace ctrlAltB t

/-- Regex of line 257 (case and default labels). -/
def caseDefaultReB (t : List Char) : Bool :=
  starCls jsSpace (fun s =>
    kwHit ['c', 'a', 's', 'e'] s || kwHit ['d', 'e', 'f', 'a', 'u', 'l', 't'] s) t

/-- The nine basic type keywords of the function patterns (lines 260 and 316). -/
def typeKws9 : List (List Char) :=
  [['i', 'n', 't'], ['v', 'o', 'i', 'd'], ['c', 'h', 'a', 'r'],
   ['f', 'l', 'o', 'a', 't'], ['d', 'o', 'u', 'b', 'l', 'e'],
   ['l', 'o', 'n', 'g'], ['s', 'h', 'o', 'r', 't'],
   ['u', 'n', 's', 'i', 'g', 'n', 'e', 'd'], ['s', 'i', 'g', 'n', 'e', 'd']]

/-- Regex of line 260 (function signature without opening brace). -/
def funcSigReB (t : List Char) : Bool :=
  starCls jsSpace (fun s =>
    altLits typeKws9 s (fun s1 =>
      plusCls jsSpace (fun s2 =>
        plusCls isWordChar (fun s3 =>
          starCls jsSpace (fun s4 =>
            match s4 with
            | '(' :: s5 =>
              starCls (fun e => !(e == ')')) (fun s6 =>
                match s6 with
                | ')' :: s7 => starCls jsSpace atEnd s7
                | _ => false) s5
            | _ => false) s3) s2) s1)) t

/-- Regex of line 263 (type definitions). -/
def typeDefReB (t : List Char) : Bool :=
  starCls jsSpace (fun s =>
    kwHit ['s', 't', 'r', 'u', 'c', 't'] s || kwHit ['u', 'n', 'i', 'o', 'n'] s ||
    kwHit ['e', 'n', 'u', 'm'] s || kwHit ['t', 'y', 'p', 'e', 'd', 'e', 'f'] s) t

/-- Regex of line 266 (standalone braces). -/
def braceOnlyReB (t : List Char) : Bool :=
  starCls jsSpace (fun s =>
    match s with
    | c :: r => (c == '\x7b' || c == '\x7d') && starCls jsSpace atEnd r
    | [] => false) t

/-- The fourteen keywords of the first needs-semicolon pattern (line 270),
in source order. -/
def declKws14 : List (List Char) :=
  [['i', 'n', 't'], ['c', 'h', 'a', 'r'], ['f', 'l', 'o', 'a', 't'],
   ['d', 'o', 'u', 'b', 'l', 'e'], ['v', 'o', 'i', 'd'], ['l', 'o', 'n', 'g'],
   ['s', 'h', 'o', 'r', 't'], ['u', 'n', 's', 'i', 'g', 'n', 'e', 'd'],
   ['s', 'i', 'g', 'n', 'e', 'd'], ['c', 'o', 'n', 's', 't'],
   ['s', 't', 'a', 't', 'i', 'c'], ['e', 'x', 't', 'e', 'r', 'n'],
   ['a', 'u', 't', 'o'], ['r', 'e', 'g', 'i', 's', 't', 'e', 'r']]

/-- Needs-semicolon pattern 1 (line 270): declaration keyword then identifier. -/
def needsP1 (t : List Char) : Bool :=
  starCls jsSpace (fun s =>
    altLits declKws14 s (fun s1 =>
      plusCls jsSpace (fun s2 => plusCls isWordChar (fun _ => true) s2) s1)) t

/-- Needs-semicolon pattern 2 (line 271): \w+\s*=\s*[(caret)=], unanchored. -/
def needsP2 (t : List Char) : Bool :=
  searchFrom (fun s =>
    plusCls isWordChar (fun s1 =>
      starCls jsSpace (fun s2 =>
        match s2 with
        | '=' :: s3 =>
          starCls jsSpace (fun s4 =>
            match s4 with
            | c :: _ => !(c == '=')
            | [] => false) s3
        | _ => false) s1) s) t

/-- Needs-semicolon pattern 3 (line 272): return, break, continue, goto. -/
def needsP3 (t : List Char) : Bool :=
  starCls jsSpace (fun s =>
    kwHit ['r', 'e', 't', 'u', 'r', 'n'] s || kwHit ['b', 'r', 'e', 'a', 'k'] s ||
    kwHit ['c', 'o', 'n', 't', 'i', 'n', 'u', 'e'] s || kwHit ['g', 'o', 't', 'o'] s) t

/-- Needs-semicolon pattern 4 (line 273): a call not followed by an opening
brace (negative lookahead). -/
def needsP4 (t : List Char) : Bool :=
  searchFrom (fun s =>
    plusCls isWordChar (fun s1 =>
      starCls jsSpace (fun s2 =>
        match s2 with
        | '(' :: s3 =>
          starCls (fun e => !(e == ')')) (fun s4 =>
            match s4 with
            | ')' :: s5 => !(starCls jsSpace (headIs '\x7b') s5)
            | _ => false) s3
        | _ => false) s1) s) t

/-- Needs-semicolon pattern 5 (line 274): indexed assignment. -/
def needsP5 (t : List Char) : Bool :=
  searchFrom (fun s =>
    plusCls isWordChar (fun s1 =>
      starCls jsSpace (fun s2 =>
        match s2 with
        | '[' :: s3 =>
          starCls (fun e => !(e == ']')) (fun s4 =>
            match s4 with
            | ']' :: s5 => starCls jsSpace (headIs '=') s5
            | _ => false) s3
        | _ => false) s1) s) t

/-- Needs-semicolon pattern 6 (line 275): pointer-dereference assignment. -/
def needsP6 (t : List Char) : Bool :=
  searchFrom (fun s =>
    match s with
    | '*' :: s1 => plusCls isWordChar (fun s2 => starCls jsSpace (headIs '=') s2) s1
    | _ => false) t

/-- Body of shouldAddSemicolon (lines 243-279) evaluated on the trimmed line. -/
def shouldTrimmed (t : List Char) : Bool :=
  if t.isEmpty || endsWithSemiB t then false
  else if endsStructuralB t then false
  else if commentPreprocB t then false
  else if ctrlReB t then false
  else if caseDefaultReB t then false
  else if funcSigReB t then false
  else if typeDefReB t then false
  else if braceOnlyReB t then false
  else needsP1 t || needsP2 t || needsP3 t || needsP4 t || needsP5 t || needsP6 t

/-- shouldAddSemicolon from extension.ts lines 243-279: trim the line, then
run the rule chain. -/
def shouldAddSemicolon (s : String) : Bool := shouldTrimmed (jsTrim s.data)

/-- text.split('\n') on a character list: JavaScript split semantics. -/
def splitOnNl (t : List Char) : List (List Char) :=
  match t with
  | [] => [[]]
  | c :: r =>
    let rest := splitOnNl r
    if c == '\n' then [] :: rest
    else (c :: rest.headI) :: rest.tail

/-- lines.join('\n'): JavaScript Array.prototype.join semantics. -/
def joinNl : List (List Char) → List Char
  | [] => []
  | [l] => l
  | l :: ls => l ++ '\n' :: joinNl ls

/-- lines[i].trim().startsWith('#include') from line 297. -/
def isIncludeL (l : List Char) : Bool :=
  List.isPrefixOf ['#', 'i', 'n', 'c', 'l', 'u', 'd', 'e'] (jsTrim l)

/-- Tail of the entry-point regex after the type keyword: \s+main\s*\( . -/
def mainTailB (s : List Char) : Bool :=
  plusCls jsSpace (fun s2 =>
    litM ['m', 'a', 'i', 'n'] s2 (fun s3 => starCls jsSpace (headIs '(') s3)) s

/-- Alternation (int|void) of the entry-point regex (line 307). -/
def mainAltB (s : List Char) : Bool :=
  litM ['i', 'n', 't'] s mainTailB || litM ['v', 'o', 'i', 'd'] s mainTailB

/-- Entry-point regex of line 307 applied to one raw line. -/
def isMainL (l : List Char) : Bool := starCls jsSpace mainAltB l

/-- First alternative of a literal alternation that is a prefix of s; since
no type keyword is a prefix of another, this is exact for the regex. -/
def pickKw : List (List Char) → List Char → Option (List Char × List Char)
  | [], _ => none
  | w :: ws, s => if List.isPrefixOf w s then some (w, s.drop w.length) else pickKw ws s

/-- The function-definition regex of line 316 with its three capture groups
(return type, name, parameter text).  Every step is forced: the character
classes of adjacent regex pieces are disjoint, so greedy consumption is the
only possible match. -/
def functionDefMatchL (l : List Char) : Option (List Char × List Char × List Char) :=
  match pickKw typeKws9 (l.dropWhile jsSpace) with
  | none => none
  | some (rt, s1) =>
    match s1 with
    | c :: r1 =>
      if jsSpace c then
        match r1.dropWhile jsSpace with
        | d :: r2 =>
          if identStartChar d then
            match (r2.dropWhile isWordChar).dropWhile jsSpace with
            | '(' :: r3 =>
              match r3.dropWhile (fun e => !(e == ')')) with
              | ')' :: r4 =>
                match r4.dropWhile jsSpace with
                | '\x7b' :: _ =>
                  some (rt, d :: r2.takeWhile isWordChar, r3.takeWhile (fun e => !(e == ')')))
                | _ => none
              | _ => none
            | _ => none
          else none
        | [] => none
      else none
    | [] => none

/-- A recorded function: name and synthesized prototype (lines 327-331). -/
structure FuncSigL where
  name : List Char
  proto : List Char
deriving DecidableEq

/-- The prototype string template of line 329. -/
def mkProto (rt nm ps : List Char) : List Char :=
  rt ++ ' ' :: (nm ++ '(' :: (ps ++ ')' :: ';' :: []))

/-- The scan of lines 319-333: match each line against the function pattern
and record every function not named main. -/
def scanFunctions (ls : List (List Char)) : List FuncSigL :=
  ls.filterMap (fun l =>
    match functionDefMatchL l with
    | some (rt, nm, ps) =>
      if nm = ['m', 'a', 'i', 'n'] then none else some ⟨nm, mkProto rt nm (jsTrim ps)⟩
    | none => none)

/-- Index of the last element satisfying p (the forward scan of lines
296-300 keeping the latest hit). -/
def lastIdxWhere {α : Type} (p : α → Bool) : List α → Option Nat
  | [] => none
  | a :: as =>
    match lastIdxWhere p as with
    | some j => some (j + 1)
    | none => if p a then some 0 else none

/-- Index of the first element satisfying p. -/
def findIdxW {α : Type} (p : α → Bool) : List α → Option Nat
  | [] => none
  | a :: as => if p a then some 0 else (findIdxW p as).map (· + 1)

/-- lastIncludeLine of lines 295-300. -/
def lastIncludeIdx (ls : List (List Char)) : Option Nat := lastIdxWhere isIncludeL ls

/-- mainLine of lines 305-311: first entry-point line strictly after li. -/
def findMainIdx (ls : List (List Char)) (li : Nat) : Option Nat :=
  (findIdxW isMainL (ls.drop (li + 1))).map (fun j => li + 1 + j)

/-- Word-boundary test against the previous character: \b before a name
that starts with a word character. -/
def bndOK : Option Char → Bool
  | none => true
  | some c => !isWordChar c

/-- The declaration-check regex of line 340 anchored at one position:
name\s*\([(caret))]*\)\s*; . -/
def declAt (nm : List Char) (s : List Char) : Bool :=
  litM nm s (fun s1 =>
    starCls jsSpace (fun s2 =>
      match s2 with
      | '(' :: s3 =>
        starCls (fun e => !(e == ')')) (fun s4 =>
          match s4 with
          | ')' :: s5 => starCls jsSpace (headIs ';') s5
          | _ => false) s3
      | _ => false) s1)

/-- Unanchored search for the declaration-check regex, tracking the
previous character for the leading word boundary. -/
def searchWBAux (nm : List Char) : Option Char → List Char → Bool
  | prev, [] => bndOK prev && declAt nm []
  | prev, c :: r => (bndOK prev && declAt nm (c :: r)) || searchWBAux nm (some c) r

/-- The test of lines 340-341: does the declaration area contain a match of
\b name \s* \( [(caret))]* \) \s* ; . -/
def declRe (nm : List Char) (area : List Char) : Bool := searchWBAux nm none area

/-- autoGeneratePrototypes (lines 285-355) as a pure function from the
document text (as lines) to the list of missing prototypes, the sequence
the editor edit inserts. -/
def autoGenCoreL (ls : List (List Char)) : List (List Char) :=
  match lastIncludeIdx ls with
  | none => []
  | some li =>
    match findMainIdx ls li with
    | none => []
    | some mi =>
      ((scanFunctions (ls.drop (mi + 1))).filter
        (fun f => !declRe f.name (joinNl ((ls.drop (li + 1)).take (mi - (li + 1)))))).map
        (fun f => f.proto)

/-- The Synthesizer on a document given as a string. -/
def autoGeneratePrototypes (text : String) : List String :=
  (autoGenCoreL (splitOnNl text.data)).map (fun l => String.mk l)

/-- The entry-point line index the Synthesizer settles on, when it exists. -/
def mainIdxOf (ls : List (List Char)) : Option Nat :=
  match lastIncludeIdx ls with
  | none => none
  | some li => findMainIdx ls li

/-- All functions the Synthesizer discovers after the entry point. -/
def foundOf (ls : List (List Char)) : List FuncSigL :=
  match mainIdxOf ls with
  | none => []
  | some mi => scanFunctions (ls.drop (mi + 1))

/-- The declaration area (lines strictly between the last include and the
entry point, joined by newlines), when both anchors exist (line 338). -/
def areaOf (ls : List (List Char)) : Option (List Char) :=
  match lastIncludeIdx ls with
  | none => none
  | some li =>
    match findMainIdx ls li with
    | none => none
    | some mi => some (joinNl ((ls.drop (li + 1)).take (mi - (li + 1))))

/-- String-level declaration area of a document. -/
def declarationArea (text : String) : Option String :=
  (areaOf (splitOnNl text.data)).map (fun l => String.mk l)

/-- The caller-side insertion of lines 347-351: the prototypes, preceded and
followed by a newline, inserted at column 0 of the line after the last
include. -/
def insertCoreL (t : List Char) : List Char :=
  match lastIncludeIdx (splitOnNl t) with
  | none => t
  | some li =>
    joinNl ((splitOnNl t).take (li + 1) ++ [[]] ++ autoGenCoreL (splitOnNl t) ++
      (splitOnNl t).drop (li + 1))

/-- String-level insertion of the synthesized prototypes. -/
def insertPrototypes (text : String) : String := String.mk (insertCoreL text.data)

/-- Modelled from the spec wording of C1: the declaration area contains the
function name, then a parenthesized argument list of any content, then the
terminator character. -/
def declSpecAny (nm a : List Char) : Prop :=
  ∃ pre mid post, a = pre ++ nm ++ '(' :: (mid ++ ')' :: ';' :: post)

/-- What the code's declaration-check regex actually recognizes: the name at
a word boundary, optional whitespace, an argument list free of closing
parentheses, optional whitespace, the terminator. -/
def declSpecCode (nm a : List Char) : Prop :=
  ∃ pre ws1 mid ws2 post,
    a = pre ++ nm ++ ws1 ++ '(' :: (mid ++ ')' :: (ws2 ++ ';' :: post)) ∧
    (∀ c ∈ ws1, jsSpace c = true) ∧
    (∀ c ∈ mid, ¬(c = ')')) ∧
    (∀ c ∈ ws2, jsSpace c = true) ∧
    (pre = [] ∨ ∃ d, pre.getLast? = some d ∧ isWordChar d = false)

/-! Helper lemmas about the character classes. -/

lemma jsSpace_mem {c : Char} (h : jsSpace c = true) : c ∈ spaceChars := by
  rcases List.any_eq_true.mp h with ⟨d, hd, he⟩
  have hcd : c = d := beq_iff_eq.mp he
  rw [hcd]
  exact hd

lemma space_not_word {c : Char} (h : jsSpace c = true) : isWordChar c = false := by
  have hm := jsSpace_mem h
  fin_cases hm <;> decide

lemma wordChar_not_space {c : Char} (h : isWordChar c = true) : jsSpace c = false := by
  cases hj : jsSpace c
  · rfl
  · rw [space_not_word hj] at h
    exact absurd h (by decide)

lemma wordChar_beq_false {c d : Char} (h : isWordChar c = true) (hd : isWordChar d = false) :
    (c == d) = false := by
  cases he : c == d
  · rfl
  · have hcd : c = d := beq_iff_eq.mp he
    rw [hcd, hd] at h
    exact absurd h (by decide)

/-! Helper lemmas about the matcher combinators. -/

lemma litM_self (w rest : List Char) (k : List Char → Bool) :
    litM w (w ++ rest) k = k rest := by
  induction w with
  | nil => rfl
  | cons c cs ih => simp [litM, ih]

lemma litM_sound {w s : List Char} {k : List Char → Bool} (h : litM w s k = true) :
    ∃ r, s = w ++ r ∧ k r = true := by
  induction w generalizing s with
  | nil => exact ⟨s, rfl, h⟩
  | cons c cs ih =>
    cases s with
    | nil => simp [litM] at h
    | cons d ds =>
      simp only [litM, Bool.and_eq_true, beq_iff_eq] at h
      obtain ⟨hcd, h2⟩ := h
      obtain ⟨r, hr, hk⟩ := ih h2
      exact ⟨r, by simp [hcd, hr], hk⟩

lemma starCls_intro {p : Char → Bool} {k : List Char → Bool} {a b : List Char}
    (ha : ∀ c ∈ a, p c = true) (hk : k b = true) : starCls p k (a ++ b) = true := by
  induction a with
  | nil =>
    cases b with
    | nil => simpa [starCls] using hk
    | cons c r => simp [starCls, hk]
  | cons c cs ih =>
    have hc := ha c (by simp)
    have ih' := ih (fun x hx => ha x (by simp [hx]))
    simp [starCls, hc, ih']

lemma starCls_sound {p : Char → Bool} {k : List Char → Bool} {s : List Char}
    (h : starCls p k s = true) :
    ∃ a b, s = a ++ b ∧ (∀ c ∈ a, p c = true) ∧ k b = true := by
  induction s with
  | nil => exact ⟨[], [], rfl, by simp, h⟩
  | cons c r ih =>
    have h' : k (c :: r) = true ∨ (p c = true ∧ starCls p k r = true) := by
      simpa [starCls, Bool.or_eq_true, Bool.and_eq_true] using h
    rcases h' with h1 | h2
    · exact ⟨[], c :: r, rfl, by simp, h1⟩
    · obtain ⟨hc, hrest⟩ := h2
      obtain ⟨a, b, hab, hpa, hk⟩ := ih hrest
      refine ⟨c :: a, b, by simp [hab], ?_, hk⟩
      intro x hx
      rcases List.mem_cons.mp hx with hx | hx
      · rw [hx]; exact hc
      · exact hpa x hx

lemma starCls_head_false {p : Char → Bool} {k : List Char → Bool} {c : Char} {r : List Char}
    (hc : p c = false) : starCls p k (c :: r) = k (c :: r) := by
  simp [starCls, hc]

/-! Helper lemmas about trimming and line splitting. -/

lemma jsTrim_cons_of_not_space {c : Char} {r : List Char} (hc : jsSpace c = false) :
    ∃ r', jsTrim (c :: r) = c :: r' := by
  unfold jsTrim
  rw [List.dropWhile_cons]
  simp only [hc, Bool.false_eq_true, if_false, List.reverse_cons, List.dropWhile_append]
  by_cases he : (List.dropWhile jsSpace r.reverse).isEmpty = true
  · rw [if_pos he]
    refine ⟨[], ?_⟩
    simp [List.dropWhile_cons, hc]
  · rw [if_neg he]
    exact ⟨(List.dropWhile jsSpace r.reverse).reverse, by simp⟩

lemma splitOnNl_ne_nil (t : List Char) : splitOnNl t ≠ [] := by
  cases t with
  | nil => simp [splitOnNl]
  | cons c r =>
    simp only [splitOnNl]
    split <;> simp

lemma mem_splitOnNl_no_nl {t l : List Char} (h : l ∈ splitOnNl t) : '\n' ∉ l := by
  induction t generalizing l with
  | nil =>
    simp only [splitOnNl, List.mem_singleton] at h
    rw [h]
    simp
  | cons c r ih =>
    cases hsp : splitOnNl r with
    | nil => exact absurd hsp (splitOnNl_ne_nil r)
    | cons x xs =>
      simp only [splitOnNl, hsp] at h
      by_cases hc : (c == '\n') = true
      · rw [if_pos hc] at h
        rcases List.mem_cons.mp h with h1 | h1
        · rw [h1]; simp
        · exact ih (hsp ▸ h1)
      · rw [if_neg hc] at h
        rcases List.mem_cons.mp h with h1 | h1
        · rw [h1]
          intro hmem
          rcases List.mem_cons.mp hmem with h2 | h2
          · exact hc (by rw [← h2]; decide)
          · have hx : x ∈ splitOnNl r := by rw [hsp]; simp
            exact ih hx (by simpa using h2)
        · have hx : l ∈ splitOnNl r := by
            rw [hsp]
            exact List.mem_cons_of_mem x (by simpa using h1)
          exact ih hx

lemma splitOnNl_of_no_nl {l : List Char} (h : '\n' ∉ l) : splitOnNl l = [l] := by
  induction l with
  | nil => rfl
  | cons c r ih =>
    have hc : ¬(c == '\n') = true := by
      intro hcc
      exact h (by rw [beq_iff_eq.mp hcc]; simp)
    have hr : '\n' ∉ r := fun hm => h (List.mem_cons_of_mem c hm)
    simp [splitOnNl, ih hr, hc]

lemma splitOnNl_append_nl {l t : List Char} (h : '\n' ∉ l) :
    splitOnNl (l ++ '\n' :: t) = l :: splitOnNl t := by
  induction l with
  | nil =>
    simp only [List.nil_append, splitOnNl]
    cases hsp : splitOnNl t with
    | nil => exact absurd hsp (splitOnNl_ne_nil t)
    | cons x xs => simp
  | cons c r ih =>
    have hc : ¬(c == '\n') = true := by
      intro hcc
      exact h (by rw [beq_iff_eq.mp hcc]; simp)
    have hr : '\n' ∉ r := fun hm => h (List.mem_cons_of_mem c hm)
    simp only [List.cons_append, splitOnNl, ih hr]
    rw [if_neg hc]
    simp [ih hr]

lemma joinNl_cons (l : List Char) (L : List (List Char)) :
    joinNl (l :: L) = l ++ (if L.isEmpty then [] else '\n' :: joinNl L) := by
  cases L <;> simp [joinNl]

lemma joinNl_append {L1 L2 : List (List Char)} (h1 : L1 ≠ []) (h2 : L2 ≠ []) :
    joinNl (L1 ++ L2) = joinNl L1 ++ '\n' :: joinNl L2 := by
  induction L1 with
  | nil => exact absurd rfl h1
  | cons l ls ih =>
    cases ls with
    | nil =>
      cases L2 with
      | nil => exact absurd rfl h2
      | cons m ms => simp [joinNl, joinNl_cons]
    | cons l2 ls2 =>
      have ihh := ih (by simp)
      rw [List.cons_append, joinNl_cons, joinNl_cons, ihh]
      simp

lemma split_join {L : List (List Char)} (hL : L ≠ []) (h : ∀ l ∈ L, '\n' ∉ l) :
    splitOnNl (joinNl L) = L := by
  induction L with
  | nil => exact absurd rfl hL
  | cons l ls ih =>
    cases ls with
    | nil => simpa [joinNl] using splitOnNl_of_no_nl (h l (by simp))
    | cons m ms =>
      rw [joinNl_cons]
      simp only [List.isEmpty_cons, if_false, Bool.false_eq_true]
      rw [splitOnNl_append_nl (h l (by simp))]
      rw [ih (by simp) (fun x hx => h x (List.mem_cons_of_mem l hx))]

/-! Helper lemmas about the index scans. -/

lemma lastIdxWhere_none_of_all {α : Type} {p : α → Bool} {l : List α}
    (h : ∀ x ∈ l, p x = false) : lastIdxWhere p l = none := by
  induction l with
  | nil => rfl
  | cons a as ih =>
    simp only [lastIdxWhere, ih (fun x hx => h x (List.mem_cons_of_mem a hx))]
    simp [h a (by simp)]

lemma all_false_of_lastIdxWhere_none {α : Type} {p : α → Bool} {l : List α}
    (h : lastIdxWhere p l = none) : ∀ x ∈ l, p x = false := by
  induction l with
  | nil => simp
  | cons a as ih =>
    simp only [lastIdxWhere] at h
    cases hr : lastIdxWhere p as with
    | some j => rw [hr] at h; simp at h
    | none =>
      rw [hr] at h
      intro x hx
      rcases List.mem_cons.mp hx with h1 | h1
      · cases hp : p a
        · rw [h1]; exact hp
        · rw [if_pos hp] at h; simp at h
      · exact ih hr x h1

lemma lastIdxWhere_lt {α : Type} {p : α → Bool} {l : List α} {i : Nat}
    (h : lastIdxWhere p l = some i) : i < l.length := by
  induction l generalizing i with
  | nil => simp [lastIdxWhere] at h
  | cons a as ih =>
    simp only [lastIdxWhere] at h
    cases hr : lastIdxWhere p as with
    | some j =>
      rw [hr] at h
      simp only [Option.some.injEq] at h
      have := ih hr
      simp only [List.length_cons]
      omega
    | none =>
      rw [hr] at h
      cases hp : p a
      · rw [if_neg (by simp [hp])] at h; simp at h
      · rw [if_pos hp] at h
        simp only [Option.some.injEq] at h
        simp [← h]

lemma lastIdxWhere_append_of_none {α : Type} {p : α → Bool} {xs ys : List α}
    (hys : lastIdxWhere p ys = none) :
    lastIdxWhere p (xs ++ ys) = lastIdxWhere p xs := by
  induction xs with
  | nil => simpa using hys
  | cons a as ih => simp only [List.cons_append, lastIdxWhere, List.append_eq, ih]

lemma lastIdxWhere_append_of_some {α : Type} {p : α → Bool} {xs ys : List α} {j : Nat}
    (hys : lastIdxWhere p ys = some j) :
    lastIdxWhere p (xs ++ ys) = some (xs.length + j) := by
  induction xs with
  | nil => simpa using hys
  | cons a as ih =>
    simp only [List.cons_append, lastIdxWhere, List.append_eq, ih, List.length_cons]
    have he : as.length + j + 1 = as.length + 1 + j := by omega
    rw [he]

lemma lastIdxWhere_split {α : Type} {p : α → Bool} {l : List α} {i : Nat}
    (h : lastIdxWhere p l = some i) :
    lastIdxWhere p (l.take (i + 1)) = some i ∧ ∀ x ∈ l.drop (i + 1), p x = false := by
  have hlen : i < l.length := lastIdxWhere_lt h
  have hsplit := List.take_append_drop (i + 1) l
  cases hd : lastIdxWhere p (l.drop (i + 1)) with
  | some j =>
    have h2 := @lastIdxWhere_append_of_some _ _ (l.take (i + 1)) _ _ hd
    rw [hsplit, h] at h2
    have hlen2 : (l.take (i + 1)).length = i + 1 := by
      simp [List.length_take]
      omega
    rw [hlen2] at h2
    simp only [Option.some.injEq] at h2
    omega
  | none =>
    have h2 := @lastIdxWhere_append_of_none _ _ (l.take (i + 1)) _ hd
    rw [hsplit, h] at h2
    exact ⟨h2.symm, all_false_of_lastIdxWhere_none hd⟩

lemma findIdxW_none_of_all {α : Type} {p : α → Bool} {l : List α}
    (h : ∀ x ∈ l, p x = false) : findIdxW p l = none := by
  induction l with
  | nil => rfl
  | cons a as ih =>
    simp only [findIdxW, h a (by simp)]
    simp [ih (fun x hx => h x (List.mem_cons_of_mem a hx))]

lemma findIdxW_append_of_all_false {α : Type} {p : α → Bool} {xs ys : List α}
    (h : ∀ x ∈ xs, p x = false) :
    findIdxW p (xs ++ ys) = (findIdxW p ys).map (· + xs.length) := by
  induction xs with
  | nil => simp
  | cons a as ih =>
    simp only [List.cons_append, findIdxW, h a (by simp)]
    rw [if_neg (by simp)]
    rw [List.append_eq, ih (fun x hx => h x (List.mem_cons_of_mem a hx))]
    cases hy : findIdxW p ys <;> (simp; try omega)

/-! Helper lemmas for the rule chain of the classifier. -/

lemma starCls_of_here {p : Char → Bool} {k : List Char → Bool} {s : List Char}
    (h : k s = true) : starCls p k s = true := by
  cases s <;> simp [starCls, h]

lemma shouldTrimmed_false_of_endsStructural {t : List Char}
    (h : endsStructuralB t = true) : shouldTrimmed t = false := by
  simp [shouldTrimmed, h]

lemma shouldTrimmed_false_of_ctrl {t : List Char}
    (h : ctrlReB t = true) : shouldTrimmed t = false := by
  simp [shouldTrimmed, h]

/-- Claim C6: every line whose trimmed text is non-empty and ends with one of
the characters brace-open, brace-close, comma, colon or backslash is
classified as not needing a terminator. -/
theorem c6_structural_tail_never_terminated :
    ∀ (s : String) (c : Char),
      (jsTrim s.data).getLast? = some c →
      c ∈ ['\x7b', '\x7d', ',', ':', '\\'] →
      shouldAddSemicolon s = false := by
  intro s c hlast hmem
  have h2 : endsStructuralB (jsTrim s.data) = true := by
    fin_cases hmem <;> simp [endsStructuralB, hlast]
  exact shouldTrimmed_false_of_endsStructural h2

/-- Witness for C6 at the concrete line "int x[] = \x7b". -/
theorem c6_structural_tail_witness :
    shouldAddSemicolon "int x[] = \x7b" = false :=
  c6_structural_tail_never_terminated "int x[] = \x7b" '\x7b' (by decide) (by decide)

/-- Claim C7: every line whose trimmed text begins with a control-flow
keyword (if, else, else if, while, for, do, switch) as a whole word is
classified false; in particular both conditional examples are false. -/
theorem c7_control_keyword_never_terminated :
    (∀ s : String,
      (kwHit ['i', 'f'] (jsTrim s.data) || kwHit ['e', 'l', 's', 'e'] (jsTrim s.data) ||
       kwHit ['w', 'h', 'i', 'l', 'e'] (jsTrim s.data) || kwHit ['f', 'o', 'r'] (jsTrim s.data) ||
       kwHit ['d', 'o'] (jsTrim s.data) || kwHit ['s', 'w', 'i', 't', 'c', 'h'] (jsTrim s.data)) = true →
      shouldAddSemicolon s = false) ∧
    shouldAddSemicolon "if (x == 5)" = false ∧
    shouldAddSemicolon "if (x = 5)" = false := by
  refine ⟨?_, by decide, by decide⟩
  intro s h
  have hctrl : ctrlReB (jsTrim s.data) = true := by
    unfold ctrlReB
    apply starCls_of_here
    simp only [Bool.or_eq_true] at h
    unfold ctrlAltB
    rcases h with ((((h | h) | h) | h) | h) | h <;> simp [h]
  exact shouldTrimmed_false_of_ctrl hctrl

/-- Witness for C7 at the concrete line "while (n > 0)". -/
theorem c7_control_keyword_witness :
    shouldAddSemicolon "while (n > 0)" = false :=
  c7_control_keyword_never_terminated.1 "while (n > 0)" (by decide)

/-- Claim C8: an empty trimmed line, or a trimmed line already ending with
the terminator, is classified false, and the four cited examples behave as
stated. -/
theorem c8_empty_or_terminated_line :
    (∀ s : String,
      (jsTrim s.data = [] ∨ (jsTrim s.data).getLast? = some ';') →
      shouldAddSemicolon s = false) ∧
    shouldAddSemicolon "int x = 5" = true ∧
    shouldAddSemicolon "int x = 5;" = false ∧
    shouldAddSemicolon "return 0" = true ∧
    shouldAddSemicolon "return 0;" = false := by
  refine ⟨?_, by decide, by decide, by decide, by decide⟩
  intro s h
  unfold shouldAddSemicolon
  rcases h with h | h
  · rw [h]
    decide
  · have h2 : endsWithSemiB (jsTrim s.data) = true := by
      simp [endsWithSemiB, h]
    simp [shouldTrimmed, h2]

/-- Witness for C8 at the concrete line "x = 1;". -/
theorem c8_empty_or_terminated_witness :
    shouldAddSemicolon "x = 1;" = false :=
  c8_empty_or_terminated_line.1 "x = 1;" (Or.inr (by decide))

/-- Claim C9: both core functions are total Lean functions, hence return a
value for every string, and unrecognized shapes fail closed to false or to
the empty sequence. -/
theorem c9_totality_fail_closed :
    (∀ s : String, shouldAddSemicolon s = true ∨ shouldAddSemicolon s = false) ∧
    (∀ s : String, ∃ l : List String, autoGeneratePrototypes s = l) ∧
    shouldAddSemicolon "" = false ∧
    shouldAddSemicolon "@#$%^&*" = false ∧
    autoGeneratePrototypes "" = [] ∧
    autoGeneratePrototypes "@#$ garbage ???" = [] := by
  refine ⟨?_, ?_, by decide, by decide, by decide, by decide⟩
  · intro s
    cases h : shouldAddSemicolon s
    · exact Or.inr rfl
    · exact Or.inl rfl
  · intro s
    exact ⟨autoGeneratePrototypes s, rfl⟩

/-! Characterizations of the Synthesizer by cases on its two anchors. -/

lemma autoGenCoreL_no_include {ls : List (List Char)}
    (h : lastIncludeIdx ls = none) : autoGenCoreL ls = [] := by
  simp only [autoGenCoreL, h]

lemma autoGenCoreL_no_main {ls : List (List Char)} {li : Nat}
    (h1 : lastIncludeIdx ls = some li) (h2 : findMainIdx ls li = none) :
    autoGenCoreL ls = [] := by
  simp only [autoGenCoreL, h1, h2]

lemma autoGenCoreL_anchored {ls : List (List Char)} {li mi : Nat}
    (h1 : lastIncludeIdx ls = some li) (h2 : findMainIdx ls li = some mi) :
    autoGenCoreL ls =
      ((scanFunctions (ls.drop (mi + 1))).filter
        (fun f => !declRe f.name (joinNl ((ls.drop (li + 1)).take (mi - (li + 1)))))).map
        (fun f => f.proto) := by
  simp only [autoGenCoreL, h1, h2]

/-- Claim C4: if no line is an include directive, or no line after the last
include matches the entry-point signature, the Synthesizer returns the empty
sequence. -/
theorem c4_missing_anchor_yields_empty :
    ∀ text : String,
      ((splitOnNl text.data).all (fun l => !isIncludeL l) = true ∨
       ∃ li, lastIncludeIdx (splitOnNl text.data) = some li ∧
         ((splitOnNl text.data).drop (li + 1)).all (fun l => !isMainL l) = true) →
      autoGeneratePrototypes text = [] := by
  intro text h
  unfold autoGeneratePrototypes
  rcases h with h | ⟨li, hli, h⟩
  · have hnone : lastIncludeIdx (splitOnNl text.data) = none := by
      unfold lastIncludeIdx
      apply lastIdxWhere_none_of_all
      intro x hx
      simpa using List.all_eq_true.mp h x hx
    rw [autoGenCoreL_no_include hnone]
    rfl
  · have hall : ∀ x ∈ (splitOnNl text.data).drop (li + 1), isMainL x = false := by
      intro x hx
      simpa using List.all_eq_true.mp h x hx
    have hm : findMainIdx (splitOnNl text.data) li = none := by
      unfold findMainIdx
      rw [findIdxW_none_of_all hall]
      rfl
    rw [autoGenCoreL_no_main hli hm]
    rfl

/-- Witness for C4 on a document with two function-shaped lines and no
include directive. -/
theorem c4_missing_anchor_witness :
    autoGeneratePrototypes "int a(int x) \x7b\nvoid b() \x7b" = [] :=
  c4_missing_anchor_yields_empty "int a(int x) \x7b\nvoid b() \x7b" (Or.inl (by decide))

/-- Claim C3: the Synthesizer emits one prototype of the form
returnType name(parameterList); per undeclared function; the single-function
document yields exactly its prototype, discovery order is preserved on the
b-then-a document, and in general the output is a sublist (hence in source
order) of the prototypes of the discovered functions. -/
theorem c3_prototype_form_and_order :
    autoGeneratePrototypes
        "#include <stdio.h>\nint main() \x7b\nreturn 0;\n\x7d\nint add(int a, int b) \x7b" =
      ["int add(int a, int b);"] ∧
    autoGeneratePrototypes
        "#include <h>\nint main() \x7b\n\x7d\nint b(int x) \x7b\nint a(int y) \x7b" =
      ["int b(int x);", "int a(int y);"] ∧
    ∀ text : String,
      (autoGenCoreL (splitOnNl text.data)).Sublist
        ((foundOf (splitOnNl text.data)).map (fun f => f.proto)) := by
  refine ⟨by decide, by decide, ?_⟩
  intro text
  cases h1 : lastIncludeIdx (splitOnNl text.data) with
  | none => rw [autoGenCoreL_no_include h1]; exact List.nil_sublist _
  | some li =>
    cases h2 : findMainIdx (splitOnNl text.data) li with
    | none => rw [autoGenCoreL_no_main h1 h2]; exact List.nil_sublist _
    | some mi =>
      rw [autoGenCoreL_anchored h1 h2]
      have hfound : foundOf (splitOnNl text.data) = scanFunctions ((splitOnNl text.data).drop (mi + 1)) := by
        simp only [foundOf, mainIdxOf, h1, h2]
      rw [hfound]
      exact List.Sublist.map _ (List.filter_sublist _)

/-- Claim C5: every emitted prototype comes from a line after the entry
point that matches the function-definition pattern with a name other than
main, so the Synthesizer never invents a function and never emits main. -/
theorem c5_output_subset_of_discovered :
    ∀ (text : String) (p : String),
      p ∈ autoGeneratePrototypes text →
      ∃ mi, mainIdxOf (splitOnNl text.data) = some mi ∧
        ∃ l ∈ (splitOnNl text.data).drop (mi + 1), ∃ rt nm ps,
          functionDefMatchL l = some (rt, nm, ps) ∧
          nm ≠ ['m', 'a', 'i', 'n'] ∧
          p.data = mkProto rt nm (jsTrim ps) := by
  intro text p hp
  unfold autoGeneratePrototypes at hp
  obtain ⟨pl, hpl, hppl⟩ := List.mem_map.mp hp
  cases h1 : lastIncludeIdx (splitOnNl text.data) with
  | none => rw [autoGenCoreL_no_include h1] at hpl; simp at hpl
  | some li =>
    cases h2 : findMainIdx (splitOnNl text.data) li with
    | none => rw [autoGenCoreL_no_main h1 h2] at hpl; simp at hpl
    | some mi =>
      rw [autoGenCoreL_anchored h1 h2] at hpl
      obtain ⟨f, hf, hfp⟩ := List.mem_map.mp hpl
      have hmem := (List.mem_filter.mp hf).1
      unfold scanFunctions at hmem
      obtain ⟨l, hl, heq⟩ := List.mem_filterMap.mp hmem
      refine ⟨mi, ?_, l, hl, ?_⟩
      · simp only [mainIdxOf, h1, h2]
      · cases h3 : functionDefMatchL l with
        | none => rw [h3] at heq; simp at heq
        | some v =>
          obtain ⟨rt, nm, ps⟩ := v
          rw [h3] at heq
          have heq' :
              (if nm = ['m', 'a', 'i', 'n'] then none
               else some (⟨nm, mkProto rt nm (jsTrim ps)⟩ : FuncSigL)) = some f := heq
          by_cases h4 : nm = ['m', 'a', 'i', 'n']
          · rw [if_pos h4] at heq'; simp at heq'
          · rw [if_neg h4] at heq'
            simp only [Option.some.injEq] at heq'
            refine ⟨rt, nm, ps, rfl, h4, ?_⟩
            rw [← hppl, ← hfp, ← heq']

/-- Witness for C5 on a document containing a second textual main
definition and one genuine helper function. -/
theorem c5_output_subset_witness :
    ("int add(int a, int b);" ∈ autoGeneratePrototypes
        "#include <s>\nint main() \x7b\n\x7d\nint main(void) \x7b\nint add(int a, int b) \x7b") ∧
    (∃ mi, mainIdxOf (splitOnNl
        "#include <s>\nint main() \x7b\n\x7d\nint main(void) \x7b\nint add(int a, int b) \x7b".data) =
          some mi ∧
      ∃ l ∈ (splitOnNl
        "#include <s>\nint main() \x7b\n\x7d\nint main(void) \x7b\nint add(int a, int b) \x7b".data).drop
          (mi + 1), ∃ rt nm ps,
        functionDefMatchL l = some (rt, nm, ps) ∧
        nm ≠ ['m', 'a', 'i', 'n'] ∧
        "int add(int a, int b);".data = mkProto rt nm (jsTrim ps)) :=
  ⟨by decide, c5_output_subset_of_discovered _ "int add(int a, int b);" (by decide)⟩

lemma getElem?_split {α : Type} {L : List α} {i : Nat} {a : α} (h : L[i]? = some a) :
    ∃ A B, L = A ++ a :: B ∧ A.length = i := by
  induction L generalizing i with
  | nil => simp at h
  | cons x xs ih =>
    cases i with
    | zero =>
      rw [List.getElem?_cons_zero] at h
      simp only [Option.some.injEq] at h
      exact ⟨[], xs, by rw [h]; rfl, rfl⟩
    | succ n =>
      rw [List.getElem?_cons_succ] at h
      obtain ⟨A, B, hAB, hlen⟩ := ih h
      exact ⟨x :: A, B, by rw [hAB]; rfl, by simp [hlen]⟩

/-! Lemmas about the declaration-check regex of line 340. -/

lemma declAt_intro_full {nm ws1 mid ws2 rest : List Char}
    (h1 : ∀ c ∈ ws1, jsSpace c = true) (hmid : ∀ c ∈ mid, ¬(c = ')'))
    (h2 : ∀ c ∈ ws2, jsSpace c = true) :
    declAt nm (nm ++ (ws1 ++ '(' :: (mid ++ ')' :: (ws2 ++ ';' :: rest)))) = true := by
  unfold declAt
  rw [litM_self]
  apply starCls_intro h1
  show starCls (fun e => !(e == ')')) _ (mid ++ ')' :: (ws2 ++ ';' :: rest)) = true
  apply starCls_intro (fun c hc => by simpa using hmid c hc)
  show starCls jsSpace (headIs ';') (ws2 ++ ';' :: rest) = true
  apply starCls_intro h2
  simp [headIs]

lemma declAt_intro {nm mid rest : List Char} (hmid : ∀ c ∈ mid, ¬(c = ')')) :
    declAt nm (nm ++ '(' :: (mid ++ ')' :: ';' :: rest)) = true := by
  have h := @declAt_intro_full nm [] mid [] rest (by simp) hmid (by simp)
  simpa using h

lemma declAt_sound {nm s : List Char} (h : declAt nm s = true) :
    ∃ ws1 mid ws2 post,
      s = nm ++ (ws1 ++ '(' :: (mid ++ ')' :: (ws2 ++ ';' :: post))) ∧
      (∀ c ∈ ws1, jsSpace c = true) ∧ (∀ c ∈ mid, ¬(c = ')')) ∧
      (∀ c ∈ ws2, jsSpace c = true) := by
  unfold declAt at h
  obtain ⟨r, hr, hk⟩ := litM_sound h
  obtain ⟨ws1, b, hb, hws1, hk2⟩ := starCls_sound hk
  split at hk2
  · rename_i s3 heq
    obtain ⟨mid, b2, hb2, hmid, hk3⟩ := starCls_sound hk2
    split at hk3
    · rename_i s5 heq2
      obtain ⟨ws2, b3, hb3, hws2, hk4⟩ := starCls_sound hk3
      cases b3 with
      | nil => simp [headIs] at hk4
      | cons d post =>
        have hd : d = ';' := by simpa [headIs] using hk4
        refine ⟨ws1, mid, ws2, post, ?_, hws1, ?_, hws2⟩
        · subst_vars
          simp
        · intro c hc
          simpa using hmid c hc
    · exact absurd hk3 (by decide)
  · exact absurd hk2 (by decide)

/-- Boundary state after reading pre, starting from previous character prev:
the boundary test the search applies at the position right after pre. -/
def bndAfter : Option Char → List Char → Bool
  | prev, [] => bndOK prev
  | _, x :: pre => bndAfter (some x) pre

lemma bndAfter_cons (prev : Option Char) (x : Char) (pre : List Char) :
    bndAfter prev (x :: pre) = bndAfter (some x) pre := rfl

lemma bndAfter_concat (prev : Option Char) (xs : List Char) (d : Char) :
    bndAfter prev (xs ++ [d]) = !isWordChar d := by
  induction xs generalizing prev with
  | nil => rfl
  | cons y ys ih => simp [bndAfter, ih]

lemma searchWBAux_intro {nm suf : List Char} (hdecl : declAt nm suf = true) :
    ∀ (pre : List Char) (prev : Option Char),
      bndAfter prev pre = true → searchWBAux nm prev (pre ++ suf) = true := by
  intro pre
  induction pre with
  | nil =>
    intro prev hb
    have hb' : bndOK prev = true := by simpa [bndAfter] using hb
    cases suf with
    | nil => simp [searchWBAux, hb', hdecl]
    | cons c r => simp [searchWBAux, hb', hdecl]
  | cons x pre' ih =>
    intro prev hb
    rw [bndAfter_cons] at hb
    simp [searchWBAux, ih (some x) hb]

lemma searchWBAux_sound {nm : List Char} :
    ∀ {s : List Char} {prev : Option Char}, searchWBAux nm prev s = true →
      ∃ pre suf, s = pre ++ suf ∧ bndAfter prev pre = true ∧ declAt nm suf = true := by
  intro s
  induction s with
  | nil =>
    intro prev h
    simp only [searchWBAux, Bool.and_eq_true] at h
    exact ⟨[], [], rfl, by simpa [bndAfter] using h.1, h.2⟩
  | cons c r ih =>
    intro prev h
    simp only [searchWBAux, Bool.or_eq_true, Bool.and_eq_true] at h
    rcases h with ⟨h1, h2⟩ | h2
    · exact ⟨[], c :: r, rfl, by simpa [bndAfter] using h1, h2⟩
    · obtain ⟨pre, suf, hps, hb, hd⟩ := ih h2
      exact ⟨c :: pre, suf, by simp [hps], by rw [bndAfter_cons]; exact hb, hd⟩

lemma searchWBAux_prev_congr {nm s : List Char} {p q : Option Char}
    (h : bndOK p = bndOK q) : searchWBAux nm p s = searchWBAux nm q s := by
  cases s <;> simp [searchWBAux, h]

lemma searchWBAux_extend_left {nm ys : List Char} {x : Char}
    (h : searchWBAux nm (some x) ys = true) :
    ∀ (pre : List Char) (prev : Option Char), searchWBAux nm prev (pre ++ x :: ys) = true := by
  intro pre
  induction pre with
  | nil => intro prev; simp [searchWBAux, h]
  | cons y pre' ih => intro prev; simp [searchWBAux, ih (some y)]

/-- The declaration-check regex recognizes exactly the decompositions of
declSpecCode: name at a word boundary, optional whitespace, an argument list
free of closing parentheses, a closing parenthesis, optional whitespace, the
terminator. -/
lemma declRe_iff_spec (nm a : List Char) :
    declRe nm a = true ↔ declSpecCode nm a := by
  constructor
  · intro h
    obtain ⟨pre, suf, hps, hb, hd⟩ := searchWBAux_sound h
    obtain ⟨ws1, mid, ws2, post, hsuf, hws1, hmid, hws2⟩ := declAt_sound hd
    refine ⟨pre, ws1, mid, ws2, post, ?_, hws1, hmid, hws2, ?_⟩
    · rw [hps, hsuf]
      simp [List.append_assoc]
    · rcases List.eq_nil_or_concat pre with hnil | ⟨ys, d, hconcat⟩
      · exact Or.inl hnil
      · rw [List.concat_eq_append] at hconcat
        right
        refine ⟨d, ?_, ?_⟩
        · rw [hconcat]
          exact List.getLast?_concat ys
        · have hb2 := hb
          rw [hconcat, bndAfter_concat] at hb2
          simpa using hb2
  · rintro ⟨pre, ws1, mid, ws2, post, heq, hws1, hmid, hws2, hbnd⟩
    unfold declRe
    have hd : declAt nm (nm ++ (ws1 ++ '(' :: (mid ++ ')' :: (ws2 ++ ';' :: post)))) = true :=
      declAt_intro_full hws1 hmid hws2
    have hb : bndAfter none pre = true := by
      rcases hbnd with rfl | ⟨d, hl, hw⟩
      · rfl
      · rcases List.eq_nil_or_concat pre with rfl | ⟨ys, d', rfl⟩
        · simp at hl
        · rw [List.concat_eq_append] at hl ⊢
          rw [List.getLast?_concat] at hl
          rw [bndAfter_concat]
          simp only [Option.some.injEq] at hl
          rw [hl, hw]
          rfl
    have h2 := searchWBAux_intro hd pre none hb
    rw [heq]
    simpa [List.append_assoc] using h2

lemma areaOf_anchored {ls : List (List Char)} {li mi : Nat}
    (h1 : lastIncludeIdx ls = some li) (h2 : findMainIdx ls li = some mi) :
    areaOf ls = some (joinNl ((ls.drop (li + 1)).take (mi - (li + 1)))) := by
  simp only [areaOf, h1, h2]

lemma areaOf_none_include {ls : List (List Char)}
    (h : lastIncludeIdx ls = none) : areaOf ls = none := by
  simp only [areaOf, h]

lemma areaOf_none_main {ls : List (List Char)} {li : Nat}
    (h1 : lastIncludeIdx ls = some li) (h2 : findMainIdx ls li = none) :
    areaOf ls = none := by
  simp only [areaOf, h1, h2]

/-- Claim C1, counterexample: on this document the declaration area contains
the name f, then a parenthesized argument list (of any content, here holding
a function-pointer parameter with its closing parenthesis), then the
terminator, yet the function f is NOT excluded from the output. -/
theorem c1_declared_check_counterexample :
    ∃ a, declarationArea
        "#include <stdio.h>\nint f(int (*g)(int));\nint main() \x7b\n\x7d\nint f(int x) \x7b" =
          some a ∧
      declSpecAny ['f'] a.data ∧
      "int f(int x);" ∈ autoGeneratePrototypes
        "#include <stdio.h>\nint f(int (*g)(int));\nint main() \x7b\n\x7d\nint f(int x) \x7b" := by
  refine ⟨"int f(int (*g)(int));", by decide, ⟨"int ".data, "int (*g)(int)".data, [], by decide⟩,
    by decide⟩

/-- Claim C1 as amended: a discovered function is excluded from the output
iff the declaration area contains the name at a word boundary, optional
whitespace, an argument list containing NO closing parenthesis, a closing
parenthesis, optional whitespace and the terminator; an argument list that
itself contains a closing parenthesis (such as a function-pointer
parameter) is not recognized. -/
theorem c1_declared_check_amended :
    ∀ (text a : String),
      declarationArea text = some a →
      (∀ nm : List Char, declRe nm a.data = true ↔ declSpecCode nm a.data) ∧
      autoGeneratePrototypes text =
        ((foundOf (splitOnNl text.data)).filter
          (fun f => !declRe f.name a.data)).map (fun f => String.mk f.proto) := by
  intro text a ha
  unfold declarationArea at ha
  rw [Option.map_eq_some'] at ha
  obtain ⟨aL, haL, hmk⟩ := ha
  have hdata : a.data = aL := by rw [← hmk]
  refine ⟨fun nm => by rw [hdata]; exact declRe_iff_spec nm aL, ?_⟩
  cases h1 : lastIncludeIdx (splitOnNl text.data) with
  | none => rw [areaOf_none_include h1] at haL; simp at haL
  | some li =>
    cases h2 : findMainIdx (splitOnNl text.data) li with
    | none => rw [areaOf_none_main h1 h2] at haL; simp at haL
    | some mi =>
      rw [areaOf_anchored h1 h2] at haL
      simp only [Option.some.injEq] at haL
      unfold autoGeneratePrototypes
      rw [autoGenCoreL_anchored h1 h2]
      have hfound : foundOf (splitOnNl text.data) =
          scanFunctions ((splitOnNl text.data).drop (mi + 1)) := by
        simp only [foundOf, mainIdxOf, h1, h2]
      rw [hfound, hdata, ← haL, List.map_map]
      rfl

/-- Witness for the amended C1 applied to a document whose declaration area
already declares the single discovered function. -/
theorem c1_declared_check_witness :
    autoGeneratePrototypes
        "#include <s>\nint add(int a, int b);\nint main() \x7b\n\x7d\nint add(int a, int b) \x7b" =
      ((foundOf (splitOnNl
        "#include <s>\nint add(int a, int b);\nint main() \x7b\n\x7d\nint add(int a, int b) \x7b".data)).filter
          (fun f => !declRe f.name "int add(int a, int b);".data)).map (fun f => String.mk f.proto) :=
  (c1_declared_check_amended
    "#include <s>\nint add(int a, int b);\nint main() \x7b\n\x7d\nint add(int a, int b) \x7b"
    "int add(int a, int b);" (by decide)).2

/-! Facts about the function-definition matcher and the scan. -/

lemma pickKw_facts {ws : List (List Char)} {s w r : List Char}
    (h : pickKw ws s = some (w, r)) : w ∈ ws ∧ s = w ++ r := by
  induction ws with
  | nil => simp [pickKw] at h
  | cons w0 ws' ih =>
    simp only [pickKw] at h
    split at h
    · rename_i hpre
      simp only [Option.some.injEq, Prod.mk.injEq] at h
      obtain ⟨hw, hr⟩ := h
      subst hw
      obtain ⟨t, ht⟩ := List.isPrefixOf_iff_prefix.mp hpre
      refine ⟨by simp, ?_⟩
      rw [← ht]
      congr 1
      rw [← hr, ← ht]
      exact (List.drop_left _ t).symm
    · exact (ih h).imp (fun hm => List.mem_cons_of_mem _ hm) id

lemma identStart_word {c : Char} (h : identStartChar c = true) : isWordChar c = true := by
  simp only [identStartChar, isWordChar, Bool.or_eq_true] at h ⊢
  tauto

lemma jsTrim_subset {l : List Char} : ∀ c ∈ jsTrim l, c ∈ l := by
  intro c hc
  unfold jsTrim at hc
  rw [List.mem_reverse] at hc
  have h1 := (List.dropWhile_sublist jsSpace).subset hc
  rw [List.mem_reverse] at h1
  exact (List.dropWhile_sublist jsSpace).subset h1

lemma fdm_facts {l rt nm ps : List Char}
    (h : functionDefMatchL l = some (rt, nm, ps)) :
    rt ∈ typeKws9 ∧ nm ≠ [] ∧ (∀ c ∈ nm, isWordChar c = true) ∧
    (∀ c ∈ ps, ¬(c = ')')) ∧ (∀ c ∈ nm, c ∈ l) ∧ (∀ c ∈ ps, c ∈ l) := by
  unfold functionDefMatchL at h
  split at h
  · simp at h
  · split at h
    · split at h
      · split at h
        · split at h
          · split at h
            · split at h
              · split at h
                · rename_i xopt rt0 sA c1 r1 hpk hsp sB d0 r2 hdw hident s4 r3 hop s6 r4 hcp
                    x0 tl hbr
                  simp only [Option.some.injEq, Prod.mk.injEq] at h
                  obtain ⟨hrt, hnm, hps⟩ := h
                  subst hrt hnm hps
                  have hs0 : l.dropWhile jsSpace = rt0 ++ (c1 :: r1) := (pickKw_facts hpk).2
                  have hmem_s1 : ∀ x ∈ c1 :: r1, x ∈ l := by
                    intro x hx
                    have hx2 : x ∈ l.dropWhile jsSpace := by
                      rw [hs0]
                      exact List.mem_append_right _ hx
                    exact (List.dropWhile_sublist jsSpace).subset hx2
                  have hmem_dr2 : ∀ x ∈ d0 :: r2, x ∈ l := by
                    intro x hx
                    rw [← hdw] at hx
                    have hx2 := (List.dropWhile_sublist jsSpace).subset hx
                    exact hmem_s1 x (List.mem_cons_of_mem c1 hx2)
                  have hmem_r3 : ∀ x ∈ '(' :: r3, x ∈ l := by
                    intro x hx
                    rw [← hop] at hx
                    have hx2 := (List.dropWhile_sublist jsSpace).subset hx
                    have hx3 := (List.dropWhile_sublist isWordChar).subset hx2
                    exact hmem_dr2 x (List.mem_cons_of_mem d0 hx3)
                  refine ⟨(pickKw_facts hpk).1, by simp, ?_, ?_, ?_, ?_⟩
                  · intro x hx
                    rcases List.mem_cons.mp hx with hx | hx
                    · rw [hx]; exact identStart_word hident
                    · exact List.mem_takeWhile_imp hx
                  · intro x hx
                    have hx2 := List.mem_takeWhile_imp hx
                    simpa using hx2
                  · intro x hx
                    rcases List.mem_cons.mp hx with hx | hx
                    · rw [hx]; exact hmem_dr2 d0 (by simp)
                    · exact hmem_dr2 x
                        (List.mem_cons_of_mem d0 ((List.takeWhile_sublist isWordChar).subset hx))
                  · intro x hx
                    exact hmem_r3 x
                      (List.mem_cons_of_mem '('
                        ((List.takeWhile_sublist (fun e => !(e == ')'))).subset hx))
                · simp at h
              · simp at h
            · simp at h
          · simp at h
        · simp at h
      · simp at h
    · simp at h

lemma mem_scan_shape {L : List (List Char)} {f : FuncSigL} (h : f ∈ scanFunctions L) :
    ∃ l ∈ L, ∃ rt nm ps, functionDefMatchL l = some (rt, nm, ps) ∧
      nm ≠ ['m', 'a', 'i', 'n'] ∧ f = ⟨nm, mkProto rt nm (jsTrim ps)⟩ := by
  unfold scanFunctions at h
  obtain ⟨l, hl, heq⟩ := List.mem_filterMap.mp h
  refine ⟨l, hl, ?_⟩
  cases h3 : functionDefMatchL l with
  | none => rw [h3] at heq; simp at heq
  | some v =>
    obtain ⟨rt, nm, ps⟩ := v
    rw [h3] at heq
    have heq' :
        (if nm = ['m', 'a', 'i', 'n'] then none
         else some (⟨nm, mkProto rt nm (jsTrim ps)⟩ : FuncSigL)) = some f := heq
    by_cases h4 : nm = ['m', 'a', 'i', 'n']
    · rw [if_pos h4] at heq'; simp at heq'
    · rw [if_neg h4] at heq'
      simp only [Option.some.injEq] at heq'
      exact ⟨rt, nm, ps, rfl, h4, heq'.symm⟩

/-- Matching the literal main, then optional whitespace and an opening
parenthesis, fails on any identifier other than main followed by an opening
parenthesis. -/
lemma mainTail_fail {nm rest : List Char} (hne : nm ≠ ['m', 'a', 'i', 'n'])
    (hword : ∀ c ∈ nm, isWordChar c = true) :
    litM ['m', 'a', 'i', 'n'] (nm ++ '(' :: rest)
      (fun s3 => starCls jsSpace (headIs '(') s3) = false := by
  cases hv : litM ['m', 'a', 'i', 'n'] (nm ++ '(' :: rest)
      (fun s3 => starCls jsSpace (headIs '(') s3) with
  | false => rfl
  | true =>
    exfalso
    obtain ⟨r, heq, hk⟩ := litM_sound hv
    rcases nm with _ | ⟨c1, nm1⟩
    · simp at heq
    rcases nm1 with _ | ⟨c2, nm2⟩
    · simp at heq
    rcases nm2 with _ | ⟨c3, nm3⟩
    · simp at heq
    rcases nm3 with _ | ⟨c4, nm4⟩
    · simp at heq
    simp only [List.cons_append, List.cons.injEq] at heq
    obtain ⟨h1, h2, h3, h4, h5⟩ := heq
    subst h1 h2 h3 h4
    rcases nm4 with _ | ⟨c5, nm5⟩
    · exact hne rfl
    · simp only [List.cons_append, List.nil_append] at h5
      subst h5
      have hw5 : isWordChar c5 = true := hword c5 (by simp)
      have hns : jsSpace c5 = false := wordChar_not_space hw5
      have hnp : (c5 == '(') = false := wordChar_beq_false hw5 (by decide)
      simp [starCls, headIs, hns, hnp] at hk

/-- A synthesized prototype line never matches the entry-point regex. -/
lemma isMainL_mkProto_false {rt nm ps : List Char} (hrt : rt ∈ typeKws9)
    (hne : nm ≠ ['m', 'a', 'i', 'n']) (hword : ∀ c ∈ nm, isWordChar c = true) :
    isMainL (mkProto rt nm ps) = false := by
  have htail : ∀ rest1 : List Char,
      mainTailB (' ' :: (nm ++ '(' :: rest1)) = false := by
    intro rest1
    unfold mainTailB
    simp only [plusCls]
    rw [show jsSpace ' ' = true from by decide]
    simp only [Bool.true_and]
    cases nm with
    | nil =>
      simp only [List.nil_append]
      rw [starCls_head_false (by decide)]
      simp [litM]
    | cons c0 nm' =>
      have hw0 : isWordChar c0 = true := hword c0 (by simp)
      rw [show (c0 :: nm') ++ '(' :: rest1 = c0 :: (nm' ++ '(' :: rest1) from rfl]
      rw [starCls_head_false (wordChar_not_space hw0)]
      have := @mainTail_fail (c0 :: nm') rest1 hne hword
      simpa using this
  fin_cases hrt <;>
    (unfold isMainL
     simp only [mkProto, List.cons_append, List.nil_append]
     simp [starCls, jsSpace, spaceChars, mainAltB, litM]
     try exact htail _)

lemma isPrefixOf_include_head_false {c : Char} {r : List Char} (hc : jsSpace c = false)
    (hne : ('#' == c) = false) :
    List.isPrefixOf ['#', 'i', 'n', 'c', 'l', 'u', 'd', 'e'] (jsTrim (c :: r)) = false := by
  obtain ⟨r', hr'⟩ := jsTrim_cons_of_not_space hc
  rw [hr']
  simp [List.isPrefixOf, hne]

/-- A synthesized prototype line never reads as an include directive. -/
lemma isIncludeL_mkProto_false {rt nm ps : List Char} (hrt : rt ∈ typeKws9) :
    isIncludeL (mkProto rt nm ps) = false := by
  fin_cases hrt <;>
    (unfold isIncludeL mkProto
     simp only [List.cons_append, List.nil_append]
     exact isPrefixOf_include_head_false (by decide) (by decide))

/-- A synthesized prototype line contains no newline when the name and the
parameter text contain none. -/
lemma mkProto_no_nl {rt nm ps : List Char} (hrt : rt ∈ typeKws9)
    (hnm : ∀ c ∈ nm, c ≠ '\n') (hps : ∀ c ∈ ps, c ≠ '\n') :
    '\n' ∉ mkProto rt nm ps := by
  intro hmem
  unfold mkProto at hmem
  rcases List.mem_append.mp hmem with h | h
  · revert h
    fin_cases hrt <;> decide
  · rcases List.mem_cons.mp h with h | h
    · exact absurd h (by decide)
    · rcases List.mem_append.mp h with h | h
      · exact hnm '\n' h rfl
      · rcases List.mem_cons.mp h with h | h
        · exact absurd h (by decide)
        · rcases List.mem_append.mp h with h | h
          · exact hps '\n' h rfl
          · revert h
            decide

/-- The three prototype-line facts used when re-running the Synthesizer on
the document after insertion. -/
lemma scan_proto_facts {L : List (List Char)} (hL : ∀ l ∈ L, '\n' ∉ l) :
    ∀ f ∈ scanFunctions L,
      '\n' ∉ f.proto ∧ isIncludeL f.proto = false ∧ isMainL f.proto = false := by
  intro f hf
  obtain ⟨l, hl, rt, nm, ps, hfdm, hne, hshape⟩ := mem_scan_shape hf
  obtain ⟨hrt, hnm_ne, hword, hps, hnml, hpsl⟩ := fdm_facts hfdm
  have hnl := hL l hl
  have hnm_nl : ∀ c ∈ nm, c ≠ '\n' := fun c hc hceq => hnl (hceq ▸ hnml c hc)
  have hps_nl : ∀ c ∈ jsTrim ps, c ≠ '\n' :=
    fun c hc hceq => hnl (hceq ▸ hpsl c (jsTrim_subset c hc))
  subst hshape
  exact ⟨mkProto_no_nl hrt hnm_nl hps_nl, isIncludeL_mkProto_false hrt,
    isMainL_mkProto_false hrt hne hword⟩

lemma declRe_nil_false {nm : List Char} (hne : nm ≠ []) : declRe nm [] = false := by
  cases nm with
  | nil => exact absurd rfl hne
  | cons c cs => simp [declRe, searchWBAux, declAt, litM, bndOK]

lemma drop_len_append {α : Type} {xs ys : List α} {n : Nat} (h : xs.length = n) :
    (xs ++ ys).drop n = ys := by
  rw [← h, List.drop_left]

lemma take_len_append_take {α : Type} {xs ys : List α} {n m : Nat} (h : xs.length = n) :
    (xs ++ ys).take (n + m) = xs ++ ys.take m := by
  rw [← h, List.take_append]

/-- Re-running the Synthesizer on the document obtained by splicing a block
of prototype-shaped lines right after the last include yields the empty
sequence, provided every discovered function is declared in the new area. -/
lemma rerun_empty {ls : List (List Char)} {li mi : Nat} {protos : List (List Char)}
    (hnl : ∀ l ∈ ls, '\n' ∉ l)
    (h1 : lastIncludeIdx ls = some li)
    (h2 : findMainIdx ls li = some mi)
    (hpnl : ∀ p ∈ protos, '\n' ∉ p)
    (hpinc : ∀ p ∈ protos, isIncludeL p = false)
    (hpmain : ∀ p ∈ protos, isMainL p = false)
    (hdecl : ∀ f ∈ scanFunctions (ls.drop (mi + 1)),
      declRe f.name
        (joinNl ([[]] ++ protos ++ (ls.drop (li + 1)).take (mi - (li + 1)))) = true) :
    autoGenCoreL (splitOnNl
      (joinNl (ls.take (li + 1) ++ [[]] ++ protos ++ ls.drop (li + 1)))) = [] := by
  have h1' : lastIdxWhere isIncludeL ls = some li := h1
  have hlen : li < ls.length := lastIdxWhere_lt h1'
  have hTlen : (ls.take (li + 1)).length = li + 1 := by
    simp only [List.length_take]
    omega
  obtain ⟨htake, hdropnone⟩ := lastIdxWhere_split h1'
  have h2' : ∃ j, findIdxW isMainL (ls.drop (li + 1)) = some j ∧ mi = li + 1 + j := by
    unfold findMainIdx at h2
    cases hj : findIdxW isMainL (ls.drop (li + 1)) with
    | none => rw [hj] at h2; simp at h2
    | some j =>
      rw [hj] at h2
      simp only [Option.map_some', Option.some.injEq] at h2
      exact ⟨j, rfl, h2.symm⟩
  obtain ⟨j, hj, hmi⟩ := h2'
  have hNL_nl : ∀ l ∈ ls.take (li + 1) ++ [[]] ++ protos ++ ls.drop (li + 1), '\n' ∉ l := by
    intro l hl
    simp only [List.append_assoc, List.mem_append, List.mem_singleton] at hl
    rcases hl with hl | hl | hl | hl
    · exact hnl l ((List.take_sublist _ _).subset hl)
    · rw [hl]; simp
    · exact hpnl l hl
    · exact hnl l (List.mem_of_mem_drop hl)
  have hNL_ne : ls.take (li + 1) ++ [[]] ++ protos ++ ls.drop (li + 1) ≠ [] := by simp
  rw [split_join hNL_ne hNL_nl]
  have hassoc : ls.take (li + 1) ++ [[]] ++ protos ++ ls.drop (li + 1)
      = ls.take (li + 1) ++ ([[]] ++ protos ++ ls.drop (li + 1)) := by
    simp [List.append_assoc]
  have hR_none : lastIdxWhere isIncludeL ([[]] ++ protos ++ ls.drop (li + 1)) = none := by
    apply lastIdxWhere_none_of_all
    intro x hx
    simp only [List.mem_append, List.mem_singleton] at hx
    rcases hx with (hx | hx) | hx
    · rw [hx]; decide
    · exact hpinc x hx
    · exact hdropnone x hx
  have hS2 : lastIncludeIdx (ls.take (li + 1) ++ [[]] ++ protos ++ ls.drop (li + 1))
      = some li := by
    show lastIdxWhere isIncludeL _ = some li
    rw [hassoc, lastIdxWhere_append_of_none hR_none]
    exact htake
  have hdropNL : (ls.take (li + 1) ++ [[]] ++ protos ++ ls.drop (li + 1)).drop (li + 1)
      = [[]] ++ protos ++ ls.drop (li + 1) := by
    rw [hassoc]
    exact drop_len_append hTlen
  have hfront_false : ∀ x ∈ ([[]] ++ protos : List (List Char)), isMainL x = false := by
    intro x hx
    rcases List.mem_append.mp hx with hx | hx
    · simp only [List.mem_singleton] at hx
      rw [hx]
      decide
    · exact hpmain x hx
  have hS3 : findMainIdx (ls.take (li + 1) ++ [[]] ++ protos ++ ls.drop (li + 1)) li
      = some (mi + protos.length + 1) := by
    unfold findMainIdx
    rw [hdropNL]
    rw [show ([[]] ++ protos ++ ls.drop (li + 1) : List (List Char))
        = ([[]] ++ protos) ++ ls.drop (li + 1) from by simp [List.append_assoc]]
    rw [findIdxW_append_of_all_false hfront_false, hj]
    simp only [Option.map_some', Option.some.injEq, List.length_append,
      List.length_singleton]
    omega
  have hdrop2 : (ls.take (li + 1) ++ [[]] ++ protos ++ ls.drop (li + 1)).drop
      ((mi + protos.length + 1) + 1) = ls.drop (mi + 1) := by
    rw [show ls.take (li + 1) ++ [[]] ++ protos ++ ls.drop (li + 1)
        = (ls.take (li + 1) ++ ([[]] ++ protos)) ++ ls.drop (li + 1) from by
      simp [List.append_assoc]]
    have hplen : (ls.take (li + 1) ++ ([[]] ++ protos)).length
        = li + 1 + (1 + protos.length) := by
      simp [hTlen]
      try omega
    rw [show (mi + protos.length + 1) + 1
        = (ls.take (li + 1) ++ ([[]] ++ protos)).length + (mi - li) from by
      rw [hplen]; omega]
    rw [List.drop_append, List.drop_drop]
    congr 1
    omega
  have hareaNL : ((ls.take (li + 1) ++ [[]] ++ protos ++ ls.drop (li + 1)).drop
      (li + 1)).take ((mi + protos.length + 1) - (li + 1))
      = [[]] ++ protos ++ (ls.drop (li + 1)).take (mi - (li + 1)) := by
    rw [hdropNL]
    rw [show ([[]] ++ protos ++ ls.drop (li + 1) : List (List Char))
        = ([[]] ++ protos) ++ ls.drop (li + 1) from by simp [List.append_assoc]]
    rw [show (mi + protos.length + 1) - (li + 1)
        = ([[]] ++ protos : List (List Char)).length + (mi - (li + 1)) from by
      simp
      try omega]
    rw [List.take_append]
    try simp [List.append_assoc]
  rw [autoGenCoreL_anchored hS2 hS3, hdrop2, hareaNL]
  have hfilter : (scanFunctions (ls.drop (mi + 1))).filter
      (fun f => !declRe f.name
        (joinNl ([[]] ++ protos ++ (ls.drop (li + 1)).take (mi - (li + 1))))) = [] := by
    rw [List.filter_eq_nil_iff]
    intro f hf
    rw [hdecl f hf]
    simp
  rw [hfilter]
  rfl

/-- Claim C2: on every document where the Synthesizer returns a non-empty
sequence, inserting the returned prototypes right after the last include
line and running the Synthesizer again yields the empty sequence. -/
theorem c2_insert_idempotent :
    ∀ text : String,
      autoGeneratePrototypes text ≠ [] →
      autoGeneratePrototypes (insertPrototypes text) = [] := by
  intro text hne
  have hcne : autoGenCoreL (splitOnNl text.data) ≠ [] := by
    intro h0
    apply hne
    unfold autoGeneratePrototypes
    rw [h0]
    rfl
  cases h1 : lastIncludeIdx (splitOnNl text.data) with
  | none => exact absurd (autoGenCoreL_no_include h1) hcne
  | some li =>
    cases h2 : findMainIdx (splitOnNl text.data) li with
    | none => exact absurd (autoGenCoreL_no_main h1 h2) hcne
    | some mi =>
      have hnl : ∀ l ∈ splitOnNl text.data, '\n' ∉ l := fun l hl => mem_splitOnNl_no_nl hl
      have hcore := autoGenCoreL_anchored h1 h2
      have hmiss_ne : ((scanFunctions ((splitOnNl text.data).drop (mi + 1))).filter
          (fun f => !declRe f.name
            (joinNl (((splitOnNl text.data).drop (li + 1)).take (mi - (li + 1)))))).map
            (fun f => f.proto) ≠ [] := by
        rw [← hcore]
        exact hcne
      have hscan_nl : ∀ l ∈ (splitOnNl text.data).drop (mi + 1), '\n' ∉ l :=
        fun l hl => hnl l (List.mem_of_mem_drop hl)
      have hpf := scan_proto_facts hscan_nl
      have hpnl : ∀ p ∈ ((scanFunctions ((splitOnNl text.data).drop (mi + 1))).filter
          (fun f => !declRe f.name
            (joinNl (((splitOnNl text.data).drop (li + 1)).take (mi - (li + 1)))))).map
            (fun f => f.proto), '\n' ∉ p := by
        intro p hp
        obtain ⟨f, hf, hfp⟩ := List.mem_map.mp hp
        exact hfp ▸ (hpf f (List.mem_filter.mp hf).1).1
      have hpinc : ∀ p ∈ ((scanFunctions ((splitOnNl text.data).drop (mi + 1))).filter
          (fun f => !declRe f.name
            (joinNl (((splitOnNl text.data).drop (li + 1)).take (mi - (li + 1)))))).map
            (fun f => f.proto), isIncludeL p = false := by
        intro p hp
        obtain ⟨f, hf, hfp⟩ := List.mem_map.mp hp
        exact hfp ▸ (hpf f (List.mem_filter.mp hf).1).2.1
      have hpmain : ∀ p ∈ ((scanFunctions ((splitOnNl text.data).drop (mi + 1))).filter
          (fun f => !declRe f.name
            (joinNl (((splitOnNl text.data).drop (li + 1)).take (mi - (li + 1)))))).map
            (fun f => f.proto), isMainL p = false := by
        intro p hp
        obtain ⟨f, hf, hfp⟩ := List.mem_map.mp hp
        exact hfp ▸ (hpf f (List.mem_filter.mp hf).1).2.2
      have hdecl : ∀ f ∈ scanFunctions ((splitOnNl text.data).drop (mi + 1)),
          declRe f.name
            (joinNl ([[]] ++ ((scanFunctions ((splitOnNl text.data).drop (mi + 1))).filter
              (fun f => !declRe f.name
                (joinNl (((splitOnNl text.data).drop (li + 1)).take (mi - (li + 1)))))).map
                (fun f => f.proto) ++
              ((splitOnNl text.data).drop (li + 1)).take (mi - (li + 1)))) = true := by
        intro f hf
        obtain ⟨l, hl, rt, nm, ps, hfdm, hne', hsh⟩ := mem_scan_shape hf
        obtain ⟨hrt, hnm_ne, hword, hps_np, hnml, hpsl⟩ := fdm_facts hfdm
        have hfname : f.name = nm := by rw [hsh]
        have hfproto : f.proto = mkProto rt nm (jsTrim ps) := by rw [hsh]
        rw [hfname]
        by_cases hd : declRe nm
            (joinNl (((splitOnNl text.data).drop (li + 1)).take (mi - (li + 1)))) = true
        · have hold_ne : ((splitOnNl text.data).drop (li + 1)).take (mi - (li + 1)) ≠ [] := by
            intro h0
            rw [h0] at hd
            rw [show joinNl ([] : List (List Char)) = [] from rfl] at hd
            rw [declRe_nil_false hnm_ne] at hd
            simp at hd
          rw [show ([[]] ++ ((scanFunctions ((splitOnNl text.data).drop (mi + 1))).filter
              (fun f => !declRe f.name
                (joinNl (((splitOnNl text.data).drop (li + 1)).take (mi - (li + 1)))))).map
                (fun f => f.proto) ++
              ((splitOnNl text.data).drop (li + 1)).take (mi - (li + 1)) : List (List Char))
              = ([[]] ++ ((scanFunctions ((splitOnNl text.data).drop (mi + 1))).filter
              (fun f => !declRe f.name
                (joinNl (((splitOnNl text.data).drop (li + 1)).take (mi - (li + 1)))))).map
                (fun f => f.proto)) ++
              ((splitOnNl text.data).drop (li + 1)).take (mi - (li + 1)) from by
            simp [List.append_assoc]]
          rw [joinNl_append (by simp) hold_ne]
          unfold declRe at hd ⊢
          have hd2 : searchWBAux nm (some '\n')
              (joinNl (((splitOnNl text.data).drop (li + 1)).take (mi - (li + 1)))) = true := by
            rw [← searchWBAux_prev_congr (show bndOK none = bndOK (some '\n') from by decide)]
            exact hd
          exact searchWBAux_extend_left hd2 _ none
        · have hdf : declRe nm
              (joinNl (((splitOnNl text.data).drop (li + 1)).take (mi - (li + 1)))) = false := by
            cases hx : declRe nm
                (joinNl (((splitOnNl text.data).drop (li + 1)).take (mi - (li + 1))))
            · rfl
            · exact absurd hx hd
          have hfm : f ∈ (scanFunctions ((splitOnNl text.data).drop (mi + 1))).filter
              (fun g => !declRe g.name
                (joinNl (((splitOnNl text.data).drop (li + 1)).take (mi - (li + 1))))) := by
            rw [List.mem_filter]
            exact ⟨hf, by rw [hfname, hdf]; rfl⟩
          have hpmem : f.proto ∈ ((scanFunctions ((splitOnNl text.data).drop (mi + 1))).filter
              (fun f => !declRe f.name
                (joinNl (((splitOnNl text.data).drop (li + 1)).take (mi - (li + 1)))))).map
                (fun f => f.proto) := List.mem_map_of_mem _ hfm
          obtain ⟨P1, P2, hPP⟩ := List.append_of_mem hpmem
          rw [hPP, hfproto]
          have hmid : ∀ c ∈ jsTrim ps, ¬(c = ')') := fun c hc => hps_np c (jsTrim_subset c hc)
          rw [show ([[]] ++ (P1 ++ mkProto rt nm (jsTrim ps) :: P2) ++
              ((splitOnNl text.data).drop (li + 1)).take (mi - (li + 1)) : List (List Char))
              = ([[]] ++ P1) ++ (mkProto rt nm (jsTrim ps) ::
                (P2 ++ ((splitOnNl text.data).drop (li + 1)).take (mi - (li + 1)))) from by
            simp [List.append_assoc]]
          rw [joinNl_append (by simp) (by simp)]
          rw [joinNl_cons]
          unfold declRe
          have hdeclAt : declAt nm (nm ++ '(' :: (jsTrim ps ++ ')' :: ';' ::
              (if (P2 ++ ((splitOnNl text.data).drop (li + 1)).take
                  (mi - (li + 1))).isEmpty = true then []
               else '\n' :: joinNl (P2 ++ ((splitOnNl text.data).drop (li + 1)).take
                  (mi - (li + 1)))))) = true := declAt_intro hmid
          have hbnd : bndAfter none ((joinNl ([[]] ++ P1) ++ '\n' :: rt) ++ [' ']) = true := by
            rw [bndAfter_concat]
            decide
          have hres := searchWBAux_intro hdeclAt
            ((joinNl ([[]] ++ P1) ++ '\n' :: rt) ++ [' ']) none hbnd
          simpa [mkProto, List.append_assoc] using hres
      have hins : insertCoreL text.data
          = joinNl ((splitOnNl text.data).take (li + 1) ++ [[]] ++
            ((scanFunctions ((splitOnNl text.data).drop (mi + 1))).filter
              (fun f => !declRe f.name
                (joinNl (((splitOnNl text.data).drop (li + 1)).take (mi - (li + 1)))))).map
                (fun f => f.proto) ++
            (splitOnNl text.data).drop (li + 1)) := by
        simp only [insertCoreL, h1, hcore]
      show ((autoGenCoreL (splitOnNl (String.mk (insertCoreL text.data)).data)).map
        (fun l => String.mk l)) = []
      rw [show (String.mk (insertCoreL text.data)).data = insertCoreL text.data from rfl, hins]
      rw [rerun_empty hnl h1 h2 hpnl hpinc hpmain hdecl]
      rfl

/-- Witness for C2 on the single-function document. -/
theorem c2_insert_idempotent_witness :
    autoGeneratePrototypes (insertPrototypes
      "#include <stdio.h>\nint main() \x7b\n\x7d\nint add(int a, int b) \x7b") = [] :=
  c2_insert_idempotent
    "#include <stdio.h>\nint main() \x7b\n\x7d\nint add(int a, int b) \x7b" (by decide)

/-- Claim C10: the Synthesizer does not deduplicate by name: for every
document, whenever two definition lines after the entry point match the
function pattern with the same undeclared name (at positions i before j),
the output contains one prototype per definition line, in that order —
the already-declared check consults only the declaration area, never the
prototypes already emitted; in particular the concrete two-definition
document yields both prototypes of f. -/
theorem c10_no_dedup_by_name :
    (∀ (text : String) (li mi i j : Nat) (l1 l2 rt1 ps1 rt2 ps2 nm : List Char),
      lastIncludeIdx (splitOnNl text.data) = some li →
      findMainIdx (splitOnNl text.data) li = some mi →
      i < j →
      ((splitOnNl text.data).drop (mi + 1))[i]? = some l1 →
      ((splitOnNl text.data).drop (mi + 1))[j]? = some l2 →
      functionDefMatchL l1 = some (rt1, nm, ps1) →
      functionDefMatchL l2 = some (rt2, nm, ps2) →
      nm ≠ ['m', 'a', 'i', 'n'] →
      declRe nm (joinNl (((splitOnNl text.data).drop (li + 1)).take (mi - (li + 1)))) = false →
      [mkProto rt1 nm (jsTrim ps1), mkProto rt2 nm (jsTrim ps2)].Sublist
        (autoGenCoreL (splitOnNl text.data))) ∧
    autoGeneratePrototypes
        "#include <a>\nint main() \x7b\n\x7d\nint f(int x) \x7b\nvoid f(void) \x7b" =
      ["int f(int x);", "void f(void);"] := by
  refine ⟨?_, by decide⟩
  intro text li mi i j l1 l2 rt1 ps1 rt2 ps2 nm h1 h2 hij hg1 hg2 hm1 hm2 hnm hnd
  obtain ⟨A, B, hLB, hAlen⟩ := getElem?_split hg1
  have hg2' : l2 ∈ B := by
    rw [hLB] at hg2
    rw [List.getElem?_append_right (by omega)] at hg2
    rw [hAlen] at hg2
    cases hd : j - i with
    | zero => omega
    | succ n =>
      rw [hd] at hg2
      rw [List.getElem?_cons_succ] at hg2
      exact List.getElem?_mem hg2
  have hF1 : (fun l => match functionDefMatchL l with
      | some (rt, nm, ps) =>
        if nm = ['m', 'a', 'i', 'n'] then none
        else some (⟨nm, mkProto rt nm (jsTrim ps)⟩ : FuncSigL)
      | none => none) l1 = some ⟨nm, mkProto rt1 nm (jsTrim ps1)⟩ := by
    simp only [hm1]
    rw [if_neg hnm]
  have hF2 : (fun l => match functionDefMatchL l with
      | some (rt, nm, ps) =>
        if nm = ['m', 'a', 'i', 'n'] then none
        else some (⟨nm, mkProto rt nm (jsTrim ps)⟩ : FuncSigL)
      | none => none) l2 = some ⟨nm, mkProto rt2 nm (jsTrim ps2)⟩ := by
    simp only [hm2]
    rw [if_neg hnm]
  have hscan : scanFunctions ((splitOnNl text.data).drop (mi + 1))
      = scanFunctions A ++
        (⟨nm, mkProto rt1 nm (jsTrim ps1)⟩ : FuncSigL) :: scanFunctions B := by
    rw [hLB]
    unfold scanFunctions
    rw [List.filterMap_append]
    congr 1
    simp [List.filterMap_cons, hF1]
  have hf2mem : (⟨nm, mkProto rt2 nm (jsTrim ps2)⟩ : FuncSigL) ∈ scanFunctions B := by
    unfold scanFunctions
    exact List.mem_filterMap.mpr ⟨l2, hg2', hF2⟩
  have hsub : [(⟨nm, mkProto rt1 nm (jsTrim ps1)⟩ : FuncSigL),
      ⟨nm, mkProto rt2 nm (jsTrim ps2)⟩].Sublist
      (scanFunctions ((splitOnNl text.data).drop (mi + 1))) := by
    rw [hscan]
    have h1s := List.singleton_sublist.mpr hf2mem
    have h2s := h1s.cons₂ (⟨nm, mkProto rt1 nm (jsTrim ps1)⟩ : FuncSigL)
    exact h2s.trans (List.sublist_append_right _ _)
  have hfsub := hsub.filter
    (fun f => !declRe f.name
      (joinNl (((splitOnNl text.data).drop (li + 1)).take (mi - (li + 1)))))
  rw [show ([(⟨nm, mkProto rt1 nm (jsTrim ps1)⟩ : FuncSigL),
      ⟨nm, mkProto rt2 nm (jsTrim ps2)⟩].filter
      (fun f => !declRe f.name
        (joinNl (((splitOnNl text.data).drop (li + 1)).take (mi - (li + 1))))))
      = [(⟨nm, mkProto rt1 nm (jsTrim ps1)⟩ : FuncSigL),
        ⟨nm, mkProto rt2 nm (jsTrim ps2)⟩] from by simp [hnd]] at hfsub
  have hmap := hfsub.map (fun f => f.proto)
  rw [autoGenCoreL_anchored h1 h2]
  simpa using hmap

/-- Witness for C10 on the concrete two-definition document, applying the
universal statement at positions 1 and 2 of the post-entry-point lines. -/
theorem c10_no_dedup_witness :
    [mkProto ("int".data) ['f'] (jsTrim ("int x".data)),
     mkProto ("void".data) ['f'] (jsTrim ("void".data))].Sublist
      (autoGenCoreL (splitOnNl
        "#include <a>\nint main() \x7b\n\x7d\nint f(int x) \x7b\nvoid f(void) \x7b".data)) :=
  c10_no_dedup_by_name.1
    "#include <a>\nint main() \x7b\n\x7d\nint f(int x) \x7b\nvoid f(void) \x7b"
    0 1 1 2 ("int f(int x) \x7b".data) ("void f(void) \x7b".data)
    ("int".data) ("int x".data) ("void".data) ("void".data) ['f']
    (by decide) (by decide) (by decide) (by decide) (by decide) (by decide) (by decide)
    (by decide) (by decide)
